import Mathlib

/-!
Verification of the directory-session and permission-state manager of a
web file-system explorer.

The development shallowly embeds the core functions of the repository:

* `src/app/utils/file-system.ts` — `requestDirectoryPermission`,
  `writeFile`, `listDirectoryEntryItems`, `removeDirectoryHandle`,
  `isSameEntry`;
* the session controller page (`handleFileUpload`, `deleteItem`,
  `createNewFolder`, `enterDirectory`, `addNewDirectory`,
  `removeDirectory`).

The browser host (File System Access API, IndexedDB via idb-keyval,
modal dialogs) is modelled by explicit oracle records: each host call
site in the source corresponds to one oracle field, and a host call that
may throw is modelled with an explicit error alternative.  Directory and
file handles are opaque and modelled as natural numbers; file contents
are lists of bytes (naturals); fractional upload progress is a rational.
-/

namespace FsExplorer

/-! ## Permission Gate (`requestDirectoryPermission`) -/

/-- The three permission states the host can report
(`PermissionState` in the web platform). -/
inductive PermState
  | granted
  | prompt
  | denied
deriving DecidableEq, Repr

/-- Host behaviour of one `(handle, mode)` pair for one gate check:
the outcome of `handle.queryPermission({ mode })` and of
`handle.requestPermission({ mode })`.  `Except.error` models the call
throwing. -/
structure PermHost where
  query : Except Unit PermState
  request : Except Unit PermState

/-- Embedding of `requestDirectoryPermission` from
`src/app/utils/file-system.ts` (lines 17–37).  The returned pair is
(boolean result, number of `requestPermission` calls issued).  A thrown
host error is caught and mapped to `false` (the `catch` branch). -/
def requestDirectoryPermission (h : PermHost) : Bool × Nat :=
  match h.query with
  | .error _ => (false, 0)
  | .ok .granted => (true, 0)
  | .ok .prompt =>
    match h.request with
    | .error _ => (false, 1)
    | .ok s => (s = PermState.granted, 1)
  | .ok .denied => (false, 0)

/-! ## Chunked file writing (`writeFile`) -/

/-- The chunk size of `writeFile`: `1024 * 1024` bytes. -/
def chunkSize : Nat := 1024 * 1024

/-- Fuelled decomposition of a byte list into successive
`file.slice(offset, offset + chunkSize)` chunks.  The fuel argument
only makes the recursion structural; any fuel at least the list length
yields the loop's chunk sequence. -/
def chunksOfFuel : Nat → List Nat → List (List Nat)
  | _, [] => []
  | 0, _ => []
  | fuel + 1, d => d.take chunkSize :: chunksOfFuel fuel (d.drop chunkSize)

/-- The decomposition of a byte list into the successive
`file.slice(offset, offset + chunkSize)` chunks taken by the
`writeFile` loop. -/
def chunksOf (d : List Nat) : List (List Nat) :=
  chunksOfFuel d.length d

/-- Host behaviour for one `writeFile` call: whether
`handle.createWritable()` succeeds, whether the `i`-th
`writable.write(chunk)` succeeds, and whether `writable.close()`
succeeds. -/
structure WriteHost where
  createOk : Bool
  writeOk : Nat → Bool
  closeOk : Bool

/-- The `while (offset < file.size)` loop of `writeFile`, iterating
over the slice sequence of the file: each iteration writes one chunk
(`.error` models the `write` call throwing, ending the loop) and then
invokes the progress callback with `offset / file.size`.  Returns the
loop outcome, the chunks actually written, and the list of progress
values passed to the callback. -/
def writeLoop (wOk : Nat → Bool) (total : Nat) :
    List (List Nat) → Nat → Nat → Except Unit Unit × List (List Nat) × List ℚ
  | [], _, _ => (.ok (), [], [])
  | c :: cs, offset, i =>
    if wOk i then
      let offset2 := offset + c.length
      let r := writeLoop wOk total cs offset2 (i + 1)
      (r.1, c :: r.2.1, ((offset2 : ℚ) / (total : ℚ)) :: r.2.2)
    else
      (.error (), [], [])

/-- The `try` block of `writeFile` (lines 76–96 of
`src/app/utils/file-system.ts`): open a writable stream, run the chunk
loop over the file's slice sequence, close the stream.  Returns the
outcome together with the chunks written and the progress values
reported. -/
def writeFileRaw (h : WriteHost) (data : List Nat) :
    Except Unit Unit × List (List Nat) × List ℚ :=
  if h.createOk then
    let r := writeLoop h.writeOk data.length (chunksOf data) 0 0
    match r.1 with
    | .error e => (.error e, r.2.1, r.2.2)
    | .ok _ =>
      if h.closeOk then (.ok (), r.2.1, r.2.2)
      else (.error (), r.2.1, r.2.2)
  else (.error (), [], [])

/-- Embedding of `writeFile`: the `try`/`catch` wrapper around
`writeFileRaw` that maps success to `true` and any thrown error to
`false`. -/
def writeFile (h : WriteHost) (data : List Nat) :
    Bool × List (List Nat) × List ℚ :=
  let r := writeFileRaw h data
  (match r.1 with | .ok _ => true | .error _ => false, r.2.1, r.2.2)

/-! ## Listing Service (`listDirectoryEntryItems`) -/

/-- The kind of a file-system entry. -/
inductive EntryKind
  | directory
  | file
deriving DecidableEq, Repr

/-- The `EntryItem` record built by `listDirectoryEntryItems`
(`shared/types/index.d.ts`): name, kind, opaque handle, and the
metadata resolved eagerly for files only. -/
structure EntryItem where
  name : String
  kind : EntryKind
  handle : Nat
  size : Option Nat := none
  lastModified : Option Nat := none
  type : Option String := none
deriving DecidableEq, Repr

/-- A raw child as produced by `handle.values()`: name, kind and
handle, before metadata resolution. -/
structure RawEntry where
  name : String
  kind : EntryKind
  handle : Nat
deriving DecidableEq, Repr

/-- Host metadata of a file handle, as returned by
`entry.getFile()`. -/
structure FileMeta where
  size : Nat
  lastModified : Nat
  type : String
deriving DecidableEq, Repr

/-- The item built from one enumerated child: for a file, `getFile()`
metadata is filled in; for a directory the metadata fields stay
absent. -/
def entryItemOf (meta : Nat → FileMeta) (e : RawEntry) : EntryItem :=
  match e.kind with
  | .file =>
    { name := e.name, kind := e.kind, handle := e.handle
      size := some (meta e.handle).size
      lastModified := some (meta e.handle).lastModified
      type := some (meta e.handle).type }
  | .directory => { name := e.name, kind := e.kind, handle := e.handle }

/-- The comparator passed to `entryItems.sort`: entries of different
kinds are ordered directory-first; entries of the same kind by the
host's `localeCompare` on their names (`lc`). -/
def entrySortCmp (lc : String → String → Int) (a b : EntryItem) : Int :=
  if a.kind ≠ b.kind then (if a.kind = EntryKind.directory then -1 else 1)
  else lc a.name b.name

/-- Boolean `≤` induced by `entrySortCmp`, used to run the sort. -/
def entryLe (lc : String → String → Int) (a b : EntryItem) : Bool :=
  entrySortCmp lc a b ≤ 0

/-- Embedding of `listDirectoryEntryItems` (lines 112–136 of
`src/app/utils/file-system.ts`): build one `EntryItem` per enumerated
child, then sort with `entrySortCmp`.  The host's enumeration is the
list `children`; `meta` resolves `getFile()` for file handles; `lc` is
the host's `localeCompare`.  The sort is modelled as a stable merge
sort, matching the host's stable comparator sort. -/
def listDirectoryEntryItems (lc : String → String → Int)
    (meta : Nat → FileMeta) (children : List RawEntry) : List EntryItem :=
  (children.map (entryItemOf meta)).mergeSort (entryLe lc)

/-- Case-folded code point of a character: upper-case ASCII letters
are mapped onto their lower-case code point. -/
def foldedPoint (c : Char) : Nat :=
  if 65 ≤ c.toNat ∧ c.toNat ≤ 90 then c.toNat + 32 else c.toNat

/-- Lexicographic comparison of code-point lists. -/
def cmpPoints : List Nat → List Nat → Ordering
  | [], [] => .eq
  | [], _ :: _ => .lt
  | _ :: _, [] => .gt
  | a :: as, b :: bs =>
    match compare a b with
    | .eq => cmpPoints as bs
    | o => o

/-- Modelled from the spec: the host's locale-aware name comparison
(`String.prototype.localeCompare` with the default locale) is not part
of the repository.  Following the spec's description and its expected
ordering (lower/upper case letters adjacent, `"A.txt"` before
`"b.txt"`), it is modelled as case-insensitive code-point comparison
with a raw code-point tiebreak. -/
def localeCmp (s t : String) : Int :=
  match cmpPoints (s.data.map foldedPoint) (t.data.map foldedPoint) with
  | .lt => -1
  | .gt => 1
  | .eq =>
    match cmpPoints (s.data.map Char.toNat) (t.data.map Char.toNat) with
    | .lt => -1
    | .gt => 1
    | .eq => 0

/-! ## Handle Store (idb-keyval backed) -/

/-- The IndexedDB key-value store of directory handles, keyed by the
generated id.  Ids are strings, handles opaque naturals. -/
abbrev HandleStore := List (String × Nat)

/-- `get(id)` from idb-keyval: the stored handle, or absent. -/
def storeGet (s : HandleStore) (id : String) : Option Nat :=
  (s.find? (fun p => p.1 = id)).map (fun p => p.2)

/-- `del(id)` from idb-keyval: drop the entry for `id`. -/
def storeDel (s : HandleStore) (id : String) : HandleStore :=
  s.filter (fun p => ¬ p.1 = id)

/-- The value a JavaScript expression evaluates to when the source
returns the raw result of `a && b`: either `undefined` or an actual
boolean. -/
inductive JsRet
  | undef
  | bool (b : Bool)
deriving DecidableEq, Repr

/-- Embedding of `removeDirectoryHandle` (lines 178–180 of
`src/app/utils/file-system.ts`): `return await get(id) && await del(id)`.
When `get(id)` is absent the `&&` short-circuits and yields that
`undefined`; when present, `del(id)` runs (removing the entry) and the
`&&` yields `del`'s resolved value, which is `undefined`
(`del` returns `Promise<void>`). -/
def removeDirectoryHandle (s : HandleStore) (id : String) :
    HandleStore × JsRet :=
  match storeGet s id with
  | some _ => (storeDel s id, JsRet.undef)
  | none => (s, JsRet.undef)

/-! ## Session state and notifications -/

/-- A `StoredDirectoryInfo` record of the Directory Registry. -/
structure DirRecord where
  id : String
  name : String
deriving DecidableEq, Repr

/-- One frame of the navigation stack (`currentPathDirectories`):
display name and directory handle. -/
structure Frame where
  name : String
  handle : Nat
deriving DecidableEq, Repr

/-- The page's view state (`currentView`). -/
inductive View
  | home
  | directory
deriving DecidableEq, Repr

/-- The notifications the page emits via `toast.add`, one constructor
per call site. -/
inductive Toast
  | permissionInvalid
  | enterFailed
  | dirExists (name : String)
  | dirAdded (name : String)
  | addFailed
  | uploadNoTarget
  | uploadNoPermission
  | fileExists (name : String)
  | uploadSuccess (name : String)
  | uploadFailed (name : String)
  | deleteNoTarget
  | deleteNoPermission
  | deleteSuccess (name : String)
  | deleteFailed (name : String)
  | createNoTarget
  | createNoPermission
  | createSuccess (name : String)
  | createFailed
deriving DecidableEq, Repr

/-- The page state the session controller owns: view, navigation
stack (`currentPathDirectories`, top of stack last, as read by
`.at(-1)`), the registry (`storedDirectories`), the handle store and
the displayed snapshot (`fileList`). -/
structure SessionState where
  view : View
  stack : List Frame
  registry : List DirRecord
  store : HandleStore
  fileList : List EntryItem
deriving DecidableEq, Repr

/-- Embedding of `removeDirectory` (page component, lines 34–37):
remove the handle entry, then filter the registry record out. -/
def removeDirectory (st : SessionState) (id : String) : SessionState :=
  { st with
    store := (removeDirectoryHandle st.store id).1
    registry := st.registry.filter (fun r => ¬ r.id = id) }

/-- Embedding of `enterDirectory` (page component, lines 40–71).
Oracles: `permHostOf` gives the gate behaviour of each handle for the
default `readwrite` mode; `listOf` gives the listing the refresh
produces.  When the stored handle is absent or fails the permission
gate, the record is pruned and a warning toast emitted; otherwise the
frame is pushed, the view switches to `directory` and the snapshot is
refreshed. -/
def enterDirectory (permHostOf : Nat → PermHost)
    (listOf : Nat → List EntryItem) (st : SessionState) (r : DirRecord) :
    SessionState × List Toast :=
  match storeGet st.store r.id with
  | some h =>
    if (requestDirectoryPermission (permHostOf h)).1 then
      ({ st with
          stack := st.stack ++ [⟨r.name, h⟩]
          view := View.directory
          fileList := listOf h }, [])
    else
      (removeDirectory st r.id, [Toast.permissionInvalid])
  | none =>
    (removeDirectory st r.id, [Toast.permissionInvalid])

/-! ## Duplicate-root detection (`addNewDirectory`, `isSameEntry`) -/

/-- Host behaviour of one `handle1.isSameEntry(handle2)` call:
identical, distinct, or the call throws. -/
inductive CmpResult
  | same
  | different
  | hostError
deriving DecidableEq, Repr

/-- Embedding of `isSameEntry` (lines 188–190 of
`src/app/utils/file-system.ts`): `handle1 && handle2 && await
handle1.isSameEntry(handle2)`.  If either handle is absent the `&&`
short-circuits to a falsy value (no host call, `ok false` here); a
throwing host call propagates as `.error`. -/
def isSameEntry (cmp : Nat → Nat → CmpResult) :
    Option Nat → Option Nat → Except Unit Bool
  | some a, some b =>
    match cmp a b with
    | .same => .ok true
    | .different => .ok false
    | .hostError => .error ()
  | _, _ => .ok false

/-- The `for (const directoryInfo of storedDirectories.value)` loop of
`addNewDirectory`: look up each registered record's stored handle and
compare it against the picked handle, stopping at the first match.  A
thrown comparison propagates out of the loop.  The second component
records the ids of the candidates actually reached by the loop. -/
def scanDuplicates (cmp : Nat → Nat → CmpResult) (store : HandleStore)
    (picked : Nat) : List DirRecord → Except Unit Bool × List String
  | [] => (.ok false, [])
  | r :: rs =>
    match isSameEntry cmp (some picked) (storeGet store r.id) with
    | .error e => (.error e, [r.id])
    | .ok true => (.ok true, [r.id])
    | .ok false =>
      let rest := scanDuplicates cmp store picked rs
      (rest.1, r.id :: rest.2)

/-- Outcome of `addNewDirectory`. -/
inductive AddOutcome
  | added (id : String)
  | duplicate
  | errorAborted
deriving DecidableEq, Repr

/-- Embedding of `addNewDirectory` (page component, lines 89–138)
after the picker returned `picked`.  `freshId` is the UUID
`saveDirectoryHandle` generates.  A comparison error escapes the loop
into the outer `catch`, aborting the add with an error toast; a found
duplicate warns without saving; otherwise the handle is saved and the
record appended. -/
def addNewDirectory (cmp : Nat → Nat → CmpResult) (freshId : String)
    (st : SessionState) (picked : Frame) :
    SessionState × List Toast × AddOutcome × List String :=
  match scanDuplicates cmp st.store picked.handle st.registry with
  | (.error _, vis) => (st, [Toast.addFailed], AddOutcome.errorAborted, vis)
  | (.ok true, vis) =>
    (st, [Toast.dirExists picked.name], AddOutcome.duplicate, vis)
  | (.ok false, vis) =>
    ({ st with
        store := st.store ++ [(freshId, picked.handle)]
        registry := st.registry ++ [⟨freshId, picked.name⟩] },
      [Toast.dirAdded picked.name], AddOutcome.added freshId, vis)

/-! ## Mutation operations (upload, delete, create folder) -/

/-- A file handed to the upload handler: its name and bytes. -/
structure UploadFile where
  name : String
  data : List Nat
deriving DecidableEq, Repr

/-- Host-visible mutation events of the mutation operations. -/
inductive MutEvent
  | createdFile (name : String)
  | wroteChunk (name : String) (bytes : List Nat)
  | removedEntry (name : String)
  | createdDir (name : String)
deriving DecidableEq, Repr

/-- Host behaviour for one upload batch: the permission-gate behaviour
per directory handle, whether `createNewFile` throws for a given file
name, the stream behaviour of each file's `writeFile` call, and the
listing the final refresh produces. -/
structure UploadHost where
  permHostOf : Nat → PermHost
  createThrows : String → Bool
  writeHostOf : String → WriteHost
  listOf : Nat → List EntryItem

/-- The per-file outcome record of one batch iteration: the toast
emitted for that file, the mutation events it caused, the bytes it
actually sent to the stream, and the progress values reported. -/
structure PerFile where
  toast : Toast
  events : List MutEvent
  written : List Nat
  progress : List ℚ
deriving DecidableEq, Repr

/-- One iteration of the `for (const file of fileArray)` loop of
`handleFileUpload` (page component, lines 196–235): if the displayed
snapshot has a file of the same name, skip with a warning toast; else
create the file handle (its failure is caught per-file with an error
toast); else run `writeFile` — whose boolean result the source
discards — and emit a success toast. -/
def processUploadFile (h : UploadHost) (snapshot : List EntryItem)
    (f : UploadFile) : PerFile :=
  if snapshot.any (fun it => it.name = f.name ∧ it.kind = EntryKind.file) then
    ⟨Toast.fileExists f.name, [], [], []⟩
  else if h.createThrows f.name then
    ⟨Toast.uploadFailed f.name, [], [], []⟩
  else
    let r := writeFile (h.writeHostOf f.name) f.data
    ⟨Toast.uploadSuccess f.name,
      MutEvent.createdFile f.name ::
        r.2.1.map (fun c => MutEvent.wroteChunk f.name c),
      r.2.1.flatten, r.2.2⟩

/-- Embedding of `handleFileUpload` (page component, lines 170–245):
resolve the target directory as the top of the navigation stack
(`.at(-1)`), failing if the stack is empty; run the permission gate in
`readwrite` mode, failing if denied; then process the files one at a
time against the unchanged snapshot and finally refresh the listing.
Returns the new state, the toasts in order, the per-file records, and
all mutation events. -/
def handleFileUpload (h : UploadHost) (st : SessionState)
    (files : List UploadFile) :
    SessionState × List Toast × List PerFile × List MutEvent :=
  match st.stack.getLast? with
  | none => (st, [Toast.uploadNoTarget], [], [])
  | some fr =>
    if (requestDirectoryPermission (h.permHostOf fr.handle)).1 then
      let results := files.map (processUploadFile h st.fileList)
      ({ st with fileList := h.listOf fr.handle },
        results.map (fun r => r.toast), results,
        (results.map (fun r => r.events)).flatten)
    else
      (st, [Toast.uploadNoPermission], [], [])

/-- Embedding of `deleteItem` (page component, lines 283–339): same
pre-flight (top of stack, then `readwrite` permission gate), then the
confirmation modal (`confirm` is the user's answer); on confirmation,
`removeEntry` (whose failure `removeThrows` is caught with an error
toast), a success toast and a listing refresh. -/
def deleteItem (permHostOf : Nat → PermHost) (confirm : Bool)
    (removeThrows : Bool) (listOf : Nat → List EntryItem)
    (st : SessionState) (item : EntryItem) :
    SessionState × List Toast × List MutEvent :=
  match st.stack.getLast? with
  | none => (st, [Toast.deleteNoTarget], [])
  | some fr =>
    if (requestDirectoryPermission (permHostOf fr.handle)).1 then
      if confirm then
        if removeThrows then
          (st, [Toast.deleteFailed item.name], [])
        else
          ({ st with fileList := listOf fr.handle },
            [Toast.deleteSuccess item.name],
            [MutEvent.removedEntry item.name])
      else (st, [], [])
    else
      (st, [Toast.deleteNoPermission], [])

/-- Embedding of `createNewFolder` (page component, lines 342–403):
same pre-flight, then the name-input modal (`modalResult`, `none` when
cancelled); on a chosen name, `createNewDirectory` (whose failure
`createThrows` is caught with an error toast), a success toast and a
listing refresh. -/
def createNewFolder (permHostOf : Nat → PermHost)
    (modalResult : Option String) (createThrows : Bool)
    (listOf : Nat → List EntryItem) (st : SessionState) :
    SessionState × List Toast × List MutEvent :=
  match st.stack.getLast? with
  | none => (st, [Toast.createNoTarget], [])
  | some fr =>
    if (requestDirectoryPermission (permHostOf fr.handle)).1 then
      match modalResult with
      | none => (st, [], [])
      | some nm =>
        if createThrows then
          (st, [Toast.createFailed], [])
        else
          ({ st with fileList := listOf fr.handle },
            [Toast.createSuccess nm], [MutEvent.createdDir nm])
    else
      (st, [Toast.createNoPermission], [])

/-! ## Theorems -/

/-- C1: for every directory handle and mode (modelled by the host
behaviour `⟨q, r⟩` of the query and request calls), the Permission Gate
returns granted without issuing a request when the queried state is
`granted`; when the state is `prompt` it issues exactly one request and
returns that request's outcome; when the state is `denied` it returns
denied without a request; and when the query or the request throws it
returns denied. -/
theorem permission_gate_check (q r : Except Unit PermState) :
    (q = Except.ok PermState.granted →
      requestDirectoryPermission ⟨q, r⟩ = (true, 0)) ∧
    (q = Except.ok PermState.denied →
      requestDirectoryPermission ⟨q, r⟩ = (false, 0)) ∧
    (∀ s, q = Except.ok PermState.prompt → r = Except.ok s →
      requestDirectoryPermission ⟨q, r⟩ = (decide (s = PermState.granted), 1)) ∧
    (∀ e, q = Except.ok PermState.prompt → r = Except.error e →
      requestDirectoryPermission ⟨q, r⟩ = (false, 1)) ∧
    (∀ e, q = Except.error e →
      requestDirectoryPermission ⟨q, r⟩ = (false, 0)) := by
  refine ⟨?_, ?_, ?_, ?_, ?_⟩ <;> intros <;> subst_vars <;>
    simp [requestDirectoryPermission]

/-- Witness for C1: host state `prompt` whose request is granted. -/
theorem permission_gate_check_witness :
    requestDirectoryPermission
      ⟨Except.ok PermState.prompt, Except.ok PermState.granted⟩ = (true, 1) := by
  simpa using
    (permission_gate_check (Except.ok PermState.prompt)
      (Except.ok PermState.granted)).2.2.1 PermState.granted rfl rfl

/-- C9: `removeDirectoryHandle` evaluated on its failing inputs.  The
`&&` expression it returns always evaluates to `undefined` — when the
entry is present the second operand is `del`'s resolved `void`, when it
is absent the first operand is the absent `get` result — so the
function never returns the boolean `true` (nor the boolean `false`),
contradicting its own doc comment; only the removes-only-if-present
part of the claim holds. -/
theorem removeDirectoryHandle_returns_undefined :
    (∀ s id, (removeDirectoryHandle s id).2 = JsRet.undef) ∧
    removeDirectoryHandle [("a", 5)] "a" = ([], JsRet.undef) ∧
    removeDirectoryHandle [] "a" = ([], JsRet.undef) ∧
    JsRet.undef ≠ JsRet.bool true ∧ JsRet.undef ≠ JsRet.bool false := by
  refine ⟨?_, by decide, by decide, by decide, by decide⟩
  intro s id
  unfold removeDirectoryHandle
  cases storeGet s id <;> simp

/-- The duplicate-detection loop hits a comparison error after a
prefix of non-matching candidates: the error propagates and only the
prefix and the erroring candidate were reached. -/
theorem scanDuplicates_error_prefix (cmp : Nat → Nat → CmpResult)
    (store : HandleStore) (picked : Nat) (pre : List DirRecord) :
    ∀ (r : DirRecord) (post : List DirRecord),
    (∀ r' ∈ pre,
      isSameEntry cmp (some picked) (storeGet store r'.id) = Except.ok false) →
    isSameEntry cmp (some picked) (storeGet store r.id) = Except.error () →
    scanDuplicates cmp store picked (pre ++ r :: post) =
      (Except.error (), pre.map (fun x => x.id) ++ [r.id]) := by
  induction pre with
  | nil =>
    intro r post _ herr
    simp [scanDuplicates, herr]
  | cons a as ih =>
    intro r post hpre herr
    have ha := hpre a (by simp)
    have htail := ih r post (fun r' hr' => hpre r' (by simp [hr'])) herr
    simp [scanDuplicates, ha, htail]

/-- Counterexample for C8 as stated: with two registered roots whose
handles are stored, a host error while comparing against the first one
aborts the whole add — the second handle is never compared (the reached
list is `["r1"]` only), nothing is saved, and an error toast is
emitted — contradicting the claim that the candidate is skipped and the
remaining handles still compared. -/
theorem addNewDirectory_hostError_counterexample :
    addNewDirectory
      (fun a b => if a = 9 ∧ b = 1 then CmpResult.hostError else CmpResult.different)
      "fresh"
      ⟨View.home, [], [⟨"r1", "d1"⟩, ⟨"r2", "d2"⟩], [("r1", 1), ("r2", 2)], []⟩
      ⟨"picked", 9⟩ =
      (⟨View.home, [], [⟨"r1", "d1"⟩, ⟨"r2", "d2"⟩], [("r1", 1), ("r2", 2)], []⟩,
        [Toast.addFailed], AddOutcome.errorAborted, ["r1"]) := by
  decide

/-- C8 amended: if the identity comparison throws a host error at some
registered candidate (after non-matching candidates), `addNewDirectory`
aborts: the error escapes the loop into the outer catch, an error toast
is emitted, the directory is not saved, and the candidates after the
erroring one are never compared. -/
theorem addNewDirectory_comparison_error_aborts
    (cmp : Nat → Nat → CmpResult) (freshId : String) (st : SessionState)
    (picked : Frame) (pre post : List DirRecord) (r : DirRecord)
    (hreg : st.registry = pre ++ r :: post)
    (hpre : ∀ r' ∈ pre,
      isSameEntry cmp (some picked.handle) (storeGet st.store r'.id) =
        Except.ok false)
    (herr : isSameEntry cmp (some picked.handle) (storeGet st.store r.id) =
      Except.error ()) :
    addNewDirectory cmp freshId st picked =
      (st, [Toast.addFailed], AddOutcome.errorAborted,
        pre.map (fun x => x.id) ++ [r.id]) := by
  unfold addNewDirectory
  rw [hreg, scanDuplicates_error_prefix cmp st.store picked.handle pre r post hpre herr]

/-- Witness for C8's amended claim: one clean candidate, then an
erroring one, then one that is never reached. -/
theorem addNewDirectory_comparison_error_aborts_witness :
    addNewDirectory
      (fun _ b => if b = 1 then CmpResult.hostError else CmpResult.different)
      "fresh"
      ⟨View.home, [],
        [⟨"r0", "d0"⟩, ⟨"r1", "d1"⟩, ⟨"r2", "d2"⟩],
        [("r0", 7), ("r1", 1), ("r2", 2)], []⟩
      ⟨"picked", 9⟩ =
      (⟨View.home, [],
          [⟨"r0", "d0"⟩, ⟨"r1", "d1"⟩, ⟨"r2", "d2"⟩],
          [("r0", 7), ("r1", 1), ("r2", 2)], []⟩,
        [Toast.addFailed], AddOutcome.errorAborted, ["r0", "r1"]) :=
  addNewDirectory_comparison_error_aborts
    (fun _ b => if b = 1 then CmpResult.hostError else CmpResult.different)
    "fresh"
    ⟨View.home, [],
      [⟨"r0", "d0"⟩, ⟨"r1", "d1"⟩, ⟨"r2", "d2"⟩],
      [("r0", 7), ("r1", 1), ("r2", 2)], []⟩
    ⟨"picked", 9⟩
    [⟨"r0", "d0"⟩] [⟨"r2", "d2"⟩] ⟨"r1", "d1"⟩
    rfl
    (by intro r' hr'; simp at hr'; subst hr'; rfl)
    rfl

/-- Transitivity of the sort's boolean `≤`, given transitivity of the
host comparator. -/
theorem entryLe_trans_of (lc : String → String → Int)
    (hlc : ∀ s t u : String, lc s t ≤ 0 → lc t u ≤ 0 → lc s u ≤ 0) :
    ∀ a b c : EntryItem, entryLe lc a b = true → entryLe lc b c = true →
      entryLe lc a c = true := by
  intro a b c hab hbc
  simp only [entryLe, decide_eq_true_eq, entrySortCmp] at hab hbc ⊢
  cases ha : a.kind <;> cases hb : b.kind <;> cases hc : c.kind <;>
    simp [ha, hb, hc] at hab hbc ⊢ <;>
    first
    | omega
    | exact hlc _ _ _ hab hbc

/-- Totality of the sort's boolean `≤`, given totality of the host
comparator. -/
theorem entryLe_total_of (lc : String → String → Int)
    (hlc : ∀ s t : String, lc s t ≤ 0 ∨ lc t s ≤ 0) :
    ∀ a b : EntryItem, (entryLe lc a b || entryLe lc b a) = true := by
  intro a b
  simp only [entryLe, Bool.or_eq_true, decide_eq_true_eq, entrySortCmp]
  cases ha : a.kind <;> cases hb : b.kind <;> simp [ha, hb] <;>
    first
    | omega
    | exact hlc _ _

/-- What the sort's boolean `≤` says about a pair: directory before
file, or same kind in comparator order. -/
theorem entryLe_elim (lc : String → String → Int) (a b : EntryItem)
    (hab : entryLe lc a b = true) :
    (a.kind = EntryKind.directory ∧ b.kind = EntryKind.file) ∨
      (a.kind = b.kind ∧ lc a.name b.name ≤ 0) := by
  simp only [entryLe, decide_eq_true_eq, entrySortCmp] at hab
  cases ha : a.kind <;> cases hb : b.kind <;> simp [ha, hb] at hab ⊢ <;> omega

unseal List.merge List.mergeSort in
/-- C4: the Listing Service result is a permutation of the enumerated
items, every directory-kind entry precedes every file-kind entry and
within each kind entries are in the host comparator's order (for any
transitive and total host comparator); and on children named
`b.txt`, `A.txt` (files), `zdir`, `adir` (directories), the result
order under the modelled default-locale comparator is
`adir, zdir, A.txt, b.txt`.  Determinism across repeated calls holds
because the embedding is a pure function of the enumeration. -/
theorem listing_sorted (lc : String → String → Int) (meta : Nat → FileMeta)
    (children : List RawEntry)
    (htrans : ∀ s t u : String, lc s t ≤ 0 → lc t u ≤ 0 → lc s u ≤ 0)
    (htot : ∀ s t : String, lc s t ≤ 0 ∨ lc t s ≤ 0) :
    (listDirectoryEntryItems lc meta children).Perm
      (children.map (entryItemOf meta)) ∧
    List.Pairwise (fun a b : EntryItem =>
      (a.kind = EntryKind.directory ∧ b.kind = EntryKind.file) ∨
      (a.kind = b.kind ∧ lc a.name b.name ≤ 0))
      (listDirectoryEntryItems lc meta children) ∧
    (listDirectoryEntryItems localeCmp (fun _ => ⟨0, 0, ""⟩)
      [⟨"b.txt", EntryKind.file, 0⟩, ⟨"A.txt", EntryKind.file, 1⟩,
       ⟨"zdir", EntryKind.directory, 2⟩, ⟨"adir", EntryKind.directory, 3⟩]).map
      (fun e => e.name) = ["adir", "zdir", "A.txt", "b.txt"] := by
  refine ⟨List.mergeSort_perm _ _, ?_, by decide⟩
  have hpw := @List.sorted_mergeSort EntryItem (entryLe lc)
    (entryLe_trans_of lc htrans) (entryLe_total_of lc htot)
    (children.map (entryItemOf meta))
  exact hpw.imp (fun hab => entryLe_elim lc _ _ hab)

/-- Witness for C4, taking the constant comparator (trivially
transitive and total) for the general conjuncts. -/
theorem listing_sorted_witness :
    (listDirectoryEntryItems localeCmp (fun _ => ⟨0, 0, ""⟩)
      [⟨"b.txt", EntryKind.file, 0⟩, ⟨"A.txt", EntryKind.file, 1⟩,
       ⟨"zdir", EntryKind.directory, 2⟩, ⟨"adir", EntryKind.directory, 3⟩]).map
      (fun e => e.name) = ["adir", "zdir", "A.txt", "b.txt"] :=
  (listing_sorted (fun _ _ => (0 : Int)) (fun _ => ⟨0, 0, ""⟩) []
    (fun _ _ _ h _ => h) (fun _ _ => Or.inl (le_refl 0))).2.2

/-! ### Chunking lemmas -/

theorem chunkSize_pos : 0 < chunkSize := by decide

/-- The fuel of `chunksOfFuel` is irrelevant once it covers the list
length. -/
theorem chunksOfFuel_congr :
    ∀ (f1 f2 : Nat) (d : List Nat), d.length ≤ f1 → d.length ≤ f2 →
      chunksOfFuel f1 d = chunksOfFuel f2 d := by
  intro f1
  induction f1 with
  | zero =>
    intro f2 d h1 _
    have hd : d = [] := List.eq_nil_of_length_eq_zero (Nat.le_zero.mp h1)
    subst hd
    cases f2 <;> rfl
  | succ n ih =>
    intro f2 d h1 h2
    cases d with
    | nil => cases f2 <;> rfl
    | cons a as =>
      cases f2 with
      | zero => simp at h2
      | succ m =>
        simp only [chunksOfFuel]
        congr 1
        apply ih
        · have := chunkSize_pos
          simp only [List.length_drop, List.length_cons]
          simp at h1
          omega
        · have := chunkSize_pos
          simp only [List.length_drop, List.length_cons]
          simp at h2
          omega

/-- Unfolding of `chunksOf` on a non-empty list. -/
theorem chunksOf_cons (d : List Nat) (hd : d ≠ []) :
    chunksOf d = d.take chunkSize :: chunksOf (d.drop chunkSize) := by
  obtain ⟨a, as, rfl⟩ := List.exists_cons_of_ne_nil hd
  show chunksOfFuel (as.length + 1) (a :: as) = _
  simp only [chunksOfFuel]
  congr 1
  apply chunksOfFuel_congr
  · have := chunkSize_pos
    simp only [List.length_drop, List.length_cons]
    omega
  · exact Nat.le_refl _

theorem chunksOf_flatten_aux :
    ∀ (n : Nat) (d : List Nat), d.length ≤ n → (chunksOf d).flatten = d := by
  intro n
  induction n with
  | zero =>
    intro d h
    have hd : d = [] := List.eq_nil_of_length_eq_zero (Nat.le_zero.mp h)
    subst hd
    rfl
  | succ n ih =>
    intro d h
    by_cases hd : d = []
    · subst hd; rfl
    · rw [chunksOf_cons d hd]
      simp only [List.flatten_cons]
      rw [ih (d.drop chunkSize)
        (by
          have := chunkSize_pos
          have hl : 0 < d.length := List.length_pos.mpr hd
          simp only [List.length_drop]
          omega)]
      exact List.take_append_drop _ _

/-- The chunks concatenate back to the source bytes. -/
theorem chunksOf_flatten (d : List Nat) : (chunksOf d).flatten = d :=
  chunksOf_flatten_aux d.length d (Nat.le_refl _)

theorem chunksOf_mem_len_aux :
    ∀ (n : Nat) (d : List Nat), d.length ≤ n →
      ∀ c ∈ chunksOf d, 0 < c.length ∧ c.length ≤ chunkSize := by
  intro n
  induction n with
  | zero =>
    intro d h c hc
    have hd : d = [] := List.eq_nil_of_length_eq_zero (Nat.le_zero.mp h)
    subst hd
    simp [chunksOf, chunksOfFuel] at hc
  | succ n ih =>
    intro d h c hc
    by_cases hd : d = []
    · subst hd; simp [chunksOf, chunksOfFuel] at hc
    · rw [chunksOf_cons d hd] at hc
      rcases List.mem_cons.mp hc with hc | hc
      · subst hc
        have hl : 0 < d.length := List.length_pos.mpr hd
        have := chunkSize_pos
        simp only [List.length_take]
        omega
      · exact ih (d.drop chunkSize)
          (by
            have := chunkSize_pos
            have hl : 0 < d.length := List.length_pos.mpr hd
            simp only [List.length_drop]
            omega) c hc

/-- Every chunk is non-empty and at most one chunk size long. -/
theorem chunksOf_mem_len (d : List Nat) :
    ∀ c ∈ chunksOf d, 0 < c.length ∧ c.length ≤ chunkSize :=
  chunksOf_mem_len_aux d.length d (Nat.le_refl _)

theorem chunksOf_dropLast_len_aux :
    ∀ (n : Nat) (d : List Nat), d.length ≤ n →
      ∀ c ∈ (chunksOf d).dropLast, c.length = chunkSize := by
  intro n
  induction n with
  | zero =>
    intro d h c hc
    have hd : d = [] := List.eq_nil_of_length_eq_zero (Nat.le_zero.mp h)
    subst hd
    simp [chunksOf, chunksOfFuel] at hc
  | succ n ih =>
    intro d h c hc
    by_cases hd : d = []
    · subst hd; simp [chunksOf, chunksOfFuel] at hc
    · rw [chunksOf_cons d hd] at hc
      by_cases hdrop : d.drop chunkSize = []
      · rw [hdrop] at hc
        simp [chunksOf, chunksOfFuel] at hc
      · have hne : chunksOf (d.drop chunkSize) ≠ [] := by
          rw [chunksOf_cons _ hdrop]
          exact List.cons_ne_nil _ _
        rw [List.dropLast_cons_of_ne_nil hne] at hc
        rcases List.mem_cons.mp hc with hc | hc
        · subst hc
          have hlong : chunkSize < d.length := by
            have h1 : 0 < (d.drop chunkSize).length := List.length_pos.mpr hdrop
            simp only [List.length_drop] at h1
            omega
          simp only [List.length_take]
          omega
        · exact ih (d.drop chunkSize)
            (by
              have := chunkSize_pos
              have hl : 0 < d.length := List.length_pos.mpr hd
              simp only [List.length_drop]
              omega) c hc

/-- Every chunk except the last is exactly one chunk size long. -/
theorem chunksOf_dropLast_len (d : List Nat) :
    ∀ c ∈ (chunksOf d).dropLast, c.length = chunkSize :=
  chunksOf_dropLast_len_aux d.length d (Nat.le_refl _)

/-! ### Write-loop lemmas -/

/-- The successive values of `offset` observed by the progress
callback: after each chunk, the end offset of that chunk. -/
def chunkEnds : List (List Nat) → Nat → List Nat
  | [], _ => []
  | c :: cs, offset => (offset + c.length) :: chunkEnds cs (offset + c.length)

theorem chunkEnds_length :
    ∀ (cs : List (List Nat)) (offset : Nat),
      (chunkEnds cs offset).length = cs.length := by
  intro cs
  induction cs with
  | nil => intro offset; rfl
  | cons c cs ih => intro offset; simp [chunkEnds, ih]

theorem chunkEnds_bounds :
    ∀ (cs : List (List Nat)) (offset : Nat), ∀ o ∈ chunkEnds cs offset,
      offset ≤ o ∧ o ≤ offset + (cs.map List.length).sum := by
  intro cs
  induction cs with
  | nil => intro offset o ho; simp [chunkEnds] at ho
  | cons c cs ih =>
    intro offset o ho
    rcases List.mem_cons.mp ho with ho | ho
    · subst ho
      simp
    · have := ih (offset + c.length) o ho
      simp only [List.map_cons, List.sum_cons]
      omega

theorem chunkEnds_chain :
    ∀ (cs : List (List Nat)) (offset : Nat),
      List.Chain' (fun a b : Nat => a ≤ b) (chunkEnds cs offset) := by
  intro cs
  induction cs with
  | nil => intro offset; simp [chunkEnds]
  | cons c cs ih =>
    intro offset
    rw [chunkEnds, List.chain'_cons']
    refine ⟨?_, ih (offset + c.length)⟩
    intro b hb
    cases cs with
    | nil => simp [chunkEnds] at hb
    | cons c' cs' =>
      simp [chunkEnds] at hb
      omega

theorem chunkEnds_getLast :
    ∀ (cs : List (List Nat)) (offset : Nat), cs ≠ [] →
      (chunkEnds cs offset).getLast? =
        some (offset + (cs.map List.length).sum) := by
  intro cs
  induction cs with
  | nil => intro offset h; exact absurd rfl h
  | cons c cs ih =>
    intro offset _
    cases cs with
    | nil => simp [chunkEnds]
    | cons c' cs' =>
      rw [chunkEnds, chunkEnds, List.getLast?_cons_cons]
      rw [show (offset + c.length + c'.length) :: chunkEnds cs' (offset + c.length + c'.length) =
        chunkEnds (c' :: cs') (offset + c.length) from rfl]
      rw [ih (offset + c.length) (List.cons_ne_nil _ _)]
      simp only [List.map_cons, List.sum_cons]
      congr 1
      omega

theorem writeLoop_ok_iff (wOk : Nat → Bool) (total : Nat) :
    ∀ (cs : List (List Nat)) (offset i : Nat),
      ((writeLoop wOk total cs offset i).1 = Except.ok () ↔
        ∀ j < cs.length, wOk (i + j) = true) := by
  intro cs
  induction cs with
  | nil => intro offset i; simp [writeLoop]
  | cons c cs ih =>
    intro offset i
    by_cases hw : wOk i = true
    · rw [writeLoop, if_pos hw]
      constructor
      · intro hok j hj
        cases j with
        | zero => simpa using hw
        | succ j' =>
          have := (ih (offset + c.length) (i + 1)).mp hok j'
            (by simpa using Nat.lt_of_succ_lt_succ hj)
          have harith : i + 1 + j' = i + (j' + 1) := by omega
          rw [harith] at this
          exact this
      · intro hall
        apply (ih (offset + c.length) (i + 1)).mpr
        intro j hj
        have := hall (j + 1) (by simpa using Nat.succ_lt_succ hj)
        have harith : i + (j + 1) = i + 1 + j := by omega
        rw [harith] at this
        exact this
    · rw [writeLoop, if_neg hw]
      simp only [List.length_cons]
      constructor
      · intro h
        exact absurd h (by simp)
      · intro hall
        exact absurd (hall 0 (Nat.succ_pos _)) (by simpa using hw)

theorem writeLoop_ok_out (wOk : Nat → Bool) (total : Nat) :
    ∀ (cs : List (List Nat)) (offset i : Nat),
      (writeLoop wOk total cs offset i).1 = Except.ok () →
      (writeLoop wOk total cs offset i).2.1 = cs ∧
      (writeLoop wOk total cs offset i).2.2 =
        (chunkEnds cs offset).map (fun o : Nat => (o : ℚ) / (total : ℚ)) := by
  intro cs
  induction cs with
  | nil => intro offset i _; simp [writeLoop, chunkEnds]
  | cons c cs ih =>
    intro offset i hok
    by_cases hw : wOk i = true
    · rw [writeLoop, if_pos hw] at hok ⊢
      have hok2 : (writeLoop wOk total cs (offset + c.length) (i + 1)).1 =
          Except.ok () := hok
      have := ih (offset + c.length) (i + 1) hok2
      simp [chunkEnds, this.1, this.2]
    · rw [writeLoop, if_neg hw] at hok
      exact absurd hok (by simp)

/-! ### C10 and C5 -/

/-- C10: `writeFile` is total with respect to host errors — a
successful `try` block yields `true`, any thrown step yields `false`
(never a propagated exception) — and it returns `true` exactly when the
stream opened, every chunk write succeeded, and the close
succeeded. -/
theorem writeFile_fail_closed (h : WriteHost) (d : List Nat) :
    ((writeFileRaw h d).1 = Except.ok () → (writeFile h d).1 = true) ∧
    (∀ e : Unit, (writeFileRaw h d).1 = Except.error e →
      (writeFile h d).1 = false) ∧
    ((writeFile h d).1 = true ↔
      (h.createOk = true ∧ (∀ j < (chunksOf d).length, h.writeOk j = true) ∧
        h.closeOk = true)) := by
  refine ⟨?_, ?_, ?_⟩
  · intro hok; simp [writeFile, hok]
  · intro e he; simp [writeFile, he]
  · unfold writeFile writeFileRaw
    by_cases hc : h.createOk = true
    · rw [if_pos hc]
      have hiff := writeLoop_ok_iff h.writeOk d.length (chunksOf d) 0 0
      rcases hr : (writeLoop h.writeOk d.length (chunksOf d) 0 0).1 with e | u
      · rw [hr] at hiff
        simp only [hr, hc, true_and]
        constructor
        · intro hfalse
          exact absurd hfalse (by simp)
        · rintro ⟨hall, -⟩
          have : (Except.error e : Except Unit Unit) = Except.ok () :=
            hiff.mpr (by intro j hj; simpa using hall j hj)
          exact absurd this (by simp)
      · rw [hr] at hiff
        have hall : ∀ j < (chunksOf d).length, h.writeOk j = true := by
          intro j hj
          simpa using hiff.mp rfl j hj
        by_cases hcl : h.closeOk = true
        · simp only [hr, hcl, hc, if_true, true_and, and_true]
          constructor
          · intro _
            exact hall
          · intro _
            trivial
        · simp [hr, hcl, hc]
    · rw [if_neg hc]
      constructor
      · intro hfalse
        simp at hfalse
      · rintro ⟨hc', -, -⟩
        exact absurd hc' hc

/-- Witness for C10: a one-byte file with a fully healthy host. -/
theorem writeFile_fail_closed_witness :
    (writeFile ⟨true, fun _ => true, true⟩ [7]).1 = true :=
  (writeFile_fail_closed ⟨true, fun _ => true, true⟩ [7]).2.2.mpr
    ⟨rfl, fun _ _ => rfl, rfl⟩

/-- C5: every successful `writeFile` writes the source in the loop's
fixed-size chunks of `1024 * 1024` bytes (all full except a final
shorter one), the chunks concatenate to the source, the progress
callback runs exactly once per chunk, each reported value lies in
`[0, 1]`, the values are non-decreasing, and for a non-empty source the
final reported value is `1`. -/
theorem writeFile_chunked_progress (h : WriteHost) (d : List Nat)
    (ws : List (List Nat)) (ps : List ℚ)
    (hw : writeFile h d = (true, ws, ps)) :
    ws = chunksOf d ∧
    ws.flatten = d ∧
    (∀ c ∈ ws.dropLast, c.length = 1024 * 1024) ∧
    (∀ c ∈ ws, 0 < c.length ∧ c.length ≤ 1024 * 1024) ∧
    ps.length = ws.length ∧
    (∀ p ∈ ps, 0 ≤ p ∧ p ≤ 1) ∧
    List.Chain' (fun p q : ℚ => p ≤ q) ps ∧
    (d ≠ [] → ps.getLast? = some 1) := by
  have hws : ws = (writeFileRaw h d).2.1 := by
    have := congrArg (fun t => t.2.1) hw
    simpa [writeFile] using this.symm
  have hps : ps = (writeFileRaw h d).2.2 := by
    have := congrArg (fun t => t.2.2) hw
    simpa [writeFile] using this.symm
  have hok : (writeFileRaw h d).1 = Except.ok () := by
    have h1 := congrArg (fun t => t.1) hw
    simp only [writeFile] at h1
    rcases hr : (writeFileRaw h d).1 with e | u
    · rw [hr] at h1; simp at h1
    · rfl
  have hcreate : h.createOk = true := by
    by_contra hcf
    rw [writeFileRaw, if_neg hcf] at hok
    simp at hok
  have hloop : (writeLoop h.writeOk d.length (chunksOf d) 0 0).1 =
      Except.ok () := by
    simp only [writeFileRaw, hcreate, if_true] at hok
    rcases hr : (writeLoop h.writeOk d.length (chunksOf d) 0 0).1 with e | u
    · rw [hr] at hok
      simp at hok
    · rfl
  have hout := writeLoop_ok_out h.writeOk d.length (chunksOf d) 0 0 hloop
  have hraw2 : (writeFileRaw h d).2.1 =
      (writeLoop h.writeOk d.length (chunksOf d) 0 0).2.1 ∧
      (writeFileRaw h d).2.2 =
      (writeLoop h.writeOk d.length (chunksOf d) 0 0).2.2 := by
    simp only [writeFileRaw, hcreate, if_true, hloop]
    by_cases hcl : h.closeOk = true <;> simp [hcl]
  have hwsc : ws = chunksOf d := by rw [hws, hraw2.1, hout.1]
  have hsum : ((chunksOf d).map List.length).sum = d.length := by
    have := congrArg List.length (chunksOf_flatten d)
    simpa [List.length_flatten] using this
  have hpsc : ps = (chunkEnds (chunksOf d) 0).map
      (fun o : Nat => (o : ℚ) / (d.length : ℚ)) := by
    rw [hps, hraw2.2, hout.2]
  refine ⟨hwsc, ?_, ?_, ?_, ?_, ?_, ?_, ?_⟩
  · rw [hwsc]; exact chunksOf_flatten d
  · rw [hwsc]; exact chunksOf_dropLast_len d
  · rw [hwsc]; exact chunksOf_mem_len d
  · rw [hpsc, hwsc, List.length_map, chunkEnds_length]
  · intro p hp
    rw [hpsc] at hp
    rcases List.mem_map.mp hp with ⟨o, ho, rfl⟩
    have hb := chunkEnds_bounds (chunksOf d) 0 o ho
    constructor
    · positivity
    · rcases Nat.eq_zero_or_pos d.length with hlen | hlen
      · have hd : d = [] := List.eq_nil_of_length_eq_zero hlen
        subst hd
        simp [chunksOf, chunksOfFuel, chunkEnds] at ho
      · rw [div_le_one (by exact_mod_cast hlen)]
        have h2 := hb.2
        rw [hsum] at h2
        have : o ≤ d.length := by omega
        exact_mod_cast this
  · rw [hpsc]
    refine List.chain'_map_of_chain' _ ?_ (chunkEnds_chain (chunksOf d) 0)
    intro a b hab
    rcases Nat.eq_zero_or_pos d.length with hlen | hlen
    · simp [hlen]
    · have hq : (0 : ℚ) < (d.length : ℚ) := by exact_mod_cast hlen
      rw [div_le_div_iff_of_pos_right hq]
      exact_mod_cast hab
  · intro hd
    have hne : chunksOf d ≠ [] := by
      rw [chunksOf_cons d hd]
      exact List.cons_ne_nil _ _
    have hlen : d.length ≠ 0 := by
      intro h0
      exact hd (List.eq_nil_of_length_eq_zero h0)
    have hlenq : (d.length : ℚ) ≠ 0 := by exact_mod_cast hlen
    rw [hpsc, List.getLast?_map, chunkEnds_getLast (chunksOf d) 0 hne]
    simp [hsum, div_self hlenq]

/-- Witness for C5: a one-byte file written by a healthy host, in one
chunk with a single progress report of `1`. -/
theorem writeFile_chunked_progress_witness :
    (writeFile ⟨true, fun _ => true, true⟩ [7]).2.1.flatten = [7] :=
  (writeFile_chunked_progress ⟨true, fun _ => true, true⟩ [7]
    (writeFile ⟨true, fun _ => true, true⟩ [7]).2.1
    (writeFile ⟨true, fun _ => true, true⟩ [7]).2.2 rfl).2.1

/-! ### C2 and C3 -/

/-- A successful `writeFile` call wrote exactly the slice sequence of
the source. -/
theorem writeFile_ok_chunks (h : WriteHost) (d : List Nat)
    (hw : (writeFile h d).1 = true) :
    (writeFile h d).2.1 = chunksOf d := by
  have hok : (writeFileRaw h d).1 = Except.ok () := by
    simp only [writeFile] at hw
    rcases hr : (writeFileRaw h d).1 with e | u
    · rw [hr] at hw
      simp at hw
    · rfl
  have hcreate : h.createOk = true := by
    by_contra hcf
    rw [writeFileRaw, if_neg hcf] at hok
    simp at hok
  have hloop : (writeLoop h.writeOk d.length (chunksOf d) 0 0).1 =
      Except.ok () := by
    simp only [writeFileRaw, hcreate, if_true] at hok
    rcases hr : (writeLoop h.writeOk d.length (chunksOf d) 0 0).1 with e | u
    · rw [hr] at hok
      simp at hok
    · rfl
  have hout := writeLoop_ok_out h.writeOk d.length (chunksOf d) 0 0 hloop
  show (writeFileRaw h d).2.1 = chunksOf d
  simp only [writeFileRaw, hcreate, if_true, hloop]
  by_cases hcl : h.closeOk = true <;> simp [hcl, hout.1]

/-- C2: in a batch upload whose pre-flight passed, the per-file
records are exactly the loop body applied to each file against the
unchanged displayed snapshot; a file whose name matches a file-kind
entry of the snapshot produces only the skip toast — no handle
creation, no write events, no bytes, no progress — and a file with no
such match whose host write succeeds has its full source bytes
written. -/
theorem upload_skip_or_full_write
    (h : UploadHost) (st : SessionState) (files : List UploadFile)
    (fr : Frame)
    (hstack : st.stack.getLast? = some fr)
    (hperm : (requestDirectoryPermission (h.permHostOf fr.handle)).1 = true) :
    (handleFileUpload h st files).2.2.1 =
      files.map (processUploadFile h st.fileList) ∧
    ∀ f ∈ files,
      ((∃ it ∈ st.fileList, it.name = f.name ∧ it.kind = EntryKind.file) →
        processUploadFile h st.fileList f =
          ⟨Toast.fileExists f.name, [], [], []⟩) ∧
      ((¬ ∃ it ∈ st.fileList, it.name = f.name ∧ it.kind = EntryKind.file) →
        h.createThrows f.name = false →
        (writeFile (h.writeHostOf f.name) f.data).1 = true →
        (processUploadFile h st.fileList f).written = f.data ∧
        (processUploadFile h st.fileList f).toast =
          Toast.uploadSuccess f.name) := by
  constructor
  · unfold handleFileUpload
    rw [hstack]
    simp [hperm]
  · intro f _
    constructor
    · intro hex
      have hany : st.fileList.any
          (fun it => it.name = f.name ∧ it.kind = EntryKind.file) = true := by
        rw [List.any_eq_true]
        obtain ⟨it, hit, h1, h2⟩ := hex
        exact ⟨it, hit, by simp [h1, h2]⟩
      simp only [processUploadFile]
      rw [hany]
      simp
    · intro hnex hct hwt
      have hany : st.fileList.any
          (fun it => it.name = f.name ∧ it.kind = EntryKind.file) = false := by
        by_contra hcon
        rw [Bool.not_eq_false, List.any_eq_true] at hcon
        obtain ⟨it, hit, hp⟩ := hcon
        simp only [decide_eq_true_eq] at hp
        exact hnex ⟨it, hit, hp⟩
      have hwc := writeFile_ok_chunks (h.writeHostOf f.name) f.data hwt
      simp only [processUploadFile, hany, Bool.false_eq_true, if_false,
        hct, if_neg]
      constructor
      · show (writeFile (h.writeHostOf f.name) f.data).2.1.flatten = f.data
        rw [hwc]
        exact chunksOf_flatten f.data
      · trivial

/-- Witness for C2: a one-file batch into an empty snapshot through a
healthy host. -/
theorem upload_skip_or_full_write_witness :
    (handleFileUpload
      ⟨fun _ => ⟨Except.ok PermState.granted, Except.ok PermState.granted⟩,
        fun _ => false, fun _ => ⟨true, fun _ => true, true⟩, fun _ => []⟩
      ⟨View.directory, [⟨"root", 3⟩], [], [], []⟩ [⟨"a", [7]⟩]).2.2.1 =
      [⟨"a", [7]⟩].map (processUploadFile
        ⟨fun _ => ⟨Except.ok PermState.granted, Except.ok PermState.granted⟩,
          fun _ => false, fun _ => ⟨true, fun _ => true, true⟩, fun _ => []⟩
        []) :=
  (upload_skip_or_full_write
    ⟨fun _ => ⟨Except.ok PermState.granted, Except.ok PermState.granted⟩,
      fun _ => false, fun _ => ⟨true, fun _ => true, true⟩, fun _ => []⟩
    ⟨View.directory, [⟨"root", 3⟩], [], [], []⟩ [⟨"a", [7]⟩]
    ⟨"root", 3⟩ rfl rfl).1

/-- C3 evaluated at its failing input: one new file `a` uploaded into
an empty snapshot while the host's stream close throws.  `writeFile`
returns `false` (the write did not fully succeed), yet the batch loop
— which discards `writeFile`'s boolean result — emits the success
toast for `a`, so a success notification is not equivalent to a fully
successful write. -/
theorem upload_write_failure_reported_success :
    (handleFileUpload
      ⟨fun _ => ⟨Except.ok PermState.granted, Except.ok PermState.granted⟩,
        fun _ => false, fun _ => ⟨true, fun _ => true, false⟩, fun _ => []⟩
      ⟨View.directory, [⟨"root", 3⟩], [], [], []⟩
      [⟨"a", [7]⟩]).2.1 = [Toast.uploadSuccess "a"] ∧
    (writeFile ⟨true, fun _ => true, false⟩ [7]).1 = false := by
  constructor
  · norm_num [handleFileUpload, processUploadFile, requestDirectoryPermission]
  · norm_num [writeFile, writeFileRaw, writeLoop, chunksOf, chunksOfFuel]

/-! ### Store lemmas, C7 and C6 -/

theorem storeGet_cons (p : String × Nat) (ps : HandleStore) (j : String) :
    storeGet (p :: ps) j = if p.1 = j then some p.2 else storeGet ps j := by
  by_cases hp : p.1 = j <;> simp [storeGet, List.find?_cons, hp]

theorem storeDel_cons (p : String × Nat) (ps : HandleStore) (id : String) :
    storeDel (p :: ps) id =
      if p.1 = id then storeDel ps id else p :: storeDel ps id := by
  by_cases hp : p.1 = id <;> simp [storeDel, List.filter_cons, hp]

theorem storeGet_storeDel_self (s : HandleStore) (id : String) :
    storeGet (storeDel s id) id = none := by
  induction s with
  | nil => rfl
  | cons p ps ih =>
    rw [storeDel_cons]
    by_cases hp : p.1 = id
    · rw [if_pos hp]
      exact ih
    · rw [if_neg hp, storeGet_cons, if_neg hp]
      exact ih

theorem storeGet_storeDel_ne (s : HandleStore) (id j : String)
    (hj : j ≠ id) : storeGet (storeDel s id) j = storeGet s j := by
  induction s with
  | nil => rfl
  | cons p ps ih =>
    rw [storeDel_cons]
    by_cases hp : p.1 = id
    · have hpj : ¬ p.1 = j := by
        rw [hp]
        exact fun he => hj he.symm
      rw [if_pos hp, ih, storeGet_cons p ps j, if_neg hpj]
    · rw [if_neg hp, storeGet_cons, storeGet_cons]
      by_cases hpj : p.1 = j
      · rw [if_pos hpj, if_pos hpj]
      · rw [if_neg hpj, if_neg hpj]
        exact ih

/-- C7: entering a registered directory whose stored handle is absent
from the Handle Store or fails the permission gate prunes the record
from the registry and its entry from the store, emits exactly one
notification, leaves the view in Home with an empty navigation stack,
and never creates a store entry (every id maps to its old handle or to
nothing). -/
theorem enter_stale_prunes
    (permHostOf : Nat → PermHost) (listOf : Nat → List EntryItem)
    (st : SessionState) (r : DirRecord)
    (hview : st.view = View.home) (hstack : st.stack = [])
    (hbad : storeGet st.store r.id = none ∨
      ∃ hdl, storeGet st.store r.id = some hdl ∧
        (requestDirectoryPermission (permHostOf hdl)).1 = false) :
    (enterDirectory permHostOf listOf st r).1.registry =
      st.registry.filter (fun x => ¬ x.id = r.id) ∧
    storeGet (enterDirectory permHostOf listOf st r).1.store r.id = none ∧
    (∀ id', storeGet (enterDirectory permHostOf listOf st r).1.store id' =
        storeGet st.store id' ∨
      storeGet (enterDirectory permHostOf listOf st r).1.store id' = none) ∧
    (enterDirectory permHostOf listOf st r).2 = [Toast.permissionInvalid] ∧
    (enterDirectory permHostOf listOf st r).1.view = View.home ∧
    (enterDirectory permHostOf listOf st r).1.stack = [] := by
  have hres : enterDirectory permHostOf listOf st r =
      (removeDirectory st r.id, [Toast.permissionInvalid]) := by
    rcases hbad with hnone | ⟨hdl, hsome, hdeny⟩
    · unfold enterDirectory
      rw [hnone]
    · unfold enterDirectory
      rw [hsome]
      simp [hdeny]
  rw [hres]
  refine ⟨rfl, ?_, ?_, rfl, ?_, ?_⟩
  · show storeGet (removeDirectoryHandle st.store r.id).1 r.id = none
    rcases hg : storeGet st.store r.id with _ | hdl
    · simp [removeDirectoryHandle, hg]
    · simp [removeDirectoryHandle, hg, storeGet_storeDel_self]
  · intro id'
    show storeGet (removeDirectoryHandle st.store r.id).1 id' = _ ∨
      storeGet (removeDirectoryHandle st.store r.id).1 id' = none
    rcases hg : storeGet st.store r.id with _ | hdl
    · left
      simp [removeDirectoryHandle, hg]
    · by_cases hid : id' = r.id
      · right
        subst hid
        simp [removeDirectoryHandle, hg, storeGet_storeDel_self]
      · left
        simp [removeDirectoryHandle, hg, storeGet_storeDel_ne st.store r.id id' hid]
  · show st.view = View.home
    exact hview
  · show st.stack = []
    exact hstack

/-- Witness for C7: a single registered record whose stored handle is
denied by the gate. -/
theorem enter_stale_prunes_witness :
    (enterDirectory (fun _ => ⟨Except.ok PermState.denied, Except.ok PermState.denied⟩)
      (fun _ => [])
      ⟨View.home, [], [⟨"r1", "d"⟩], [("r1", 4)], []⟩ ⟨"r1", "d"⟩).2 =
      [Toast.permissionInvalid] :=
  (enter_stale_prunes
    (fun _ => ⟨Except.ok PermState.denied, Except.ok PermState.denied⟩)
    (fun _ => [])
    ⟨View.home, [], [⟨"r1", "d"⟩], [("r1", 4)], []⟩ ⟨"r1", "d"⟩
    rfl rfl (Or.inr ⟨4, rfl, rfl⟩)).2.2.2.1

/-- C6: each mutation operation (upload, delete entry, create folder)
resolves the target as the top of the navigation stack and fails with
its no-target toast and no mutation events when the stack is empty;
with a resolved target it fails with its insufficient-permission toast
and no mutation events when the `readwrite` gate denies; and any
mutation event implies the stack was non-empty and the gate
granted. -/
theorem mutation_preflight
    (h : UploadHost) (st : SessionState) (files : List UploadFile)
    (permHostOf : Nat → PermHost) (confirm removeThrows : Bool)
    (modalResult : Option String) (createThrows : Bool)
    (listOf : Nat → List EntryItem) (item : EntryItem) :
    (st.stack = [] →
      handleFileUpload h st files = (st, [Toast.uploadNoTarget], [], []) ∧
      deleteItem permHostOf confirm removeThrows listOf st item =
        (st, [Toast.deleteNoTarget], []) ∧
      createNewFolder permHostOf modalResult createThrows listOf st =
        (st, [Toast.createNoTarget], [])) ∧
    (∀ fr, st.stack.getLast? = some fr →
      ((requestDirectoryPermission (h.permHostOf fr.handle)).1 = false →
        handleFileUpload h st files = (st, [Toast.uploadNoPermission], [], [])) ∧
      ((requestDirectoryPermission (permHostOf fr.handle)).1 = false →
        deleteItem permHostOf confirm removeThrows listOf st item =
          (st, [Toast.deleteNoPermission], []) ∧
        createNewFolder permHostOf modalResult createThrows listOf st =
          (st, [Toast.createNoPermission], []))) ∧
    ((handleFileUpload h st files).2.2.2 ≠ [] →
      ∃ fr, st.stack.getLast? = some fr ∧
        (requestDirectoryPermission (h.permHostOf fr.handle)).1 = true) ∧
    ((deleteItem permHostOf confirm removeThrows listOf st item).2.2 ≠ [] →
      ∃ fr, st.stack.getLast? = some fr ∧
        (requestDirectoryPermission (permHostOf fr.handle)).1 = true) ∧
    ((createNewFolder permHostOf modalResult createThrows listOf st).2.2 ≠ [] →
      ∃ fr, st.stack.getLast? = some fr ∧
        (requestDirectoryPermission (permHostOf fr.handle)).1 = true) := by
  refine ⟨?_, ?_, ?_, ?_, ?_⟩
  · intro hstack
    have hl : st.stack.getLast? = none := by simp [hstack]
    exact ⟨by simp [handleFileUpload, hl], by simp [deleteItem, hl],
      by simp [createNewFolder, hl]⟩
  · intro fr hl
    constructor
    · intro hdeny
      unfold handleFileUpload
      rw [hl]
      simp [hdeny]
    · intro hdeny
      constructor
      · unfold deleteItem
        rw [hl]
        simp [hdeny]
      · unfold createNewFolder
        rw [hl]
        simp [hdeny]
  · intro hne
    rcases hl : st.stack.getLast? with _ | fr
    · exact absurd (by simp [handleFileUpload, hl]) hne
    · by_cases hg : (requestDirectoryPermission (h.permHostOf fr.handle)).1 = true
      · exact ⟨fr, rfl, hg⟩
      · refine absurd ?_ hne
        unfold handleFileUpload
        rw [hl]
        simp [hg]
  · intro hne
    rcases hl : st.stack.getLast? with _ | fr
    · exact absurd (by simp [deleteItem, hl]) hne
    · by_cases hg : (requestDirectoryPermission (permHostOf fr.handle)).1 = true
      · exact ⟨fr, rfl, hg⟩
      · refine absurd ?_ hne
        unfold deleteItem
        rw [hl]
        simp [hg]
  · intro hne
    rcases hl : st.stack.getLast? with _ | fr
    · exact absurd (by simp [createNewFolder, hl]) hne
    · by_cases hg : (requestDirectoryPermission (permHostOf fr.handle)).1 = true
      · exact ⟨fr, rfl, hg⟩
      · refine absurd ?_ hne
        unfold createNewFolder
        rw [hl]
        simp [hg]

/-- Witness for C6: an empty navigation stack, where all three
operations fail with their no-target toast. -/
theorem mutation_preflight_witness :
    handleFileUpload
      ⟨fun _ => ⟨Except.ok PermState.granted, Except.ok PermState.granted⟩,
        fun _ => false, fun _ => ⟨true, fun _ => true, true⟩, fun _ => []⟩
      ⟨View.home, [], [], [], []⟩ [] =
      (⟨View.home, [], [], [], []⟩, [Toast.uploadNoTarget], [], []) :=
  ((mutation_preflight
    ⟨fun _ => ⟨Except.ok PermState.granted, Except.ok PermState.granted⟩,
      fun _ => false, fun _ => ⟨true, fun _ => true, true⟩, fun _ => []⟩
    ⟨View.home, [], [], [], []⟩ [] (fun _ => ⟨Except.ok PermState.granted,
      Except.ok PermState.granted⟩) true false none false (fun _ => [])
    ⟨"x", EntryKind.file, 0, none, none, none⟩).1 rfl).1

end FsExplorer
